import Mathlib

/-!
Verification of the `third-party-summary` Lighthouse audit
(`lighthouse-core/audits/third-party-summary.js`).

The audit attributes network transfer bytes and main-thread execution time
to third-party entities, aggregates them into a map keyed by entity,
ranks the resulting rows by a combined score, and reports grand totals.

The external collaborators (`third-party-web`'s `getEntity`, which may throw
on non-URL input, and `BootupTime`'s `getJavaScriptURLs` /
`getAttributableURLForTask`) are not part of the audited file; they are
modelled as an abstract environment `Env`.  JavaScript `Map` objects keyed by
entity (with insertion-order iteration) are modelled as association lists.
Numeric values are rationals / naturals (exact arithmetic).
-/

namespace ThirdPartySummary

/-- A third-party entity from the `third-party-web` knowledge base:
stable identity (aggregation key), display name, optional homepage URL. -/
structure Entity where
  id : Nat
  name : String
  homepage : Option String
deriving DecidableEq

/-- Per-entity running totals, the `{mainThreadTime: 0, transferSize: 0}`
stats object of `getSummaryByEntity`. -/
structure Stats where
  mainThreadTime : ℚ
  transferSize : Nat
deriving DecidableEq

/-- The slice of `LH.Artifacts.NetworkRequest` the audit reads. -/
structure NetworkRequest where
  url : String
  transferSize : Nat
deriving DecidableEq

/-- The slice of `LH.Artifacts.TaskNode` the audit reads: `selfTime` plus
opaque attribution metadata consumed by the external URL resolver. -/
structure TaskNode where
  selfTime : ℚ
  attributionMeta : String
deriving DecidableEq

/-- Modelled from the spec: the external collaborators used by the audit but
defined outside the audited file.  `getEntity` is the `third-party-web`
knowledge-base lookup, which may throw on strings with no domain (modelled
with `Except`); `getJavaScriptURLs` and `getAttributableURLForTask` are the
`BootupTime` helpers computing the executed-script URL set and the URL a
task's cost is charged to. -/
structure Env where
  getEntity : String → Except Unit (Option Entity)
  getJavaScriptURLs : List NetworkRequest → List String
  getAttributableURLForTask : TaskNode → List String → String

/-- `ThirdPartySummary.getEntitySafe`: calls the throwing knowledge-base
lookup and converts any exception into `undefined` (here `none`). -/
def getEntitySafe (getEntity : String → Except Unit (Option Entity))
    (url : String) : Option Entity :=
  match getEntity url with
  | Except.ok e => e
  | Except.error _ => none

/-- A JavaScript `Map<Entity, Stats>`: an insertion-ordered association list. -/
abbrev EntityMap := List (Entity × Stats)

/-- `Map.get`: the value stored at the first occurrence of the key. -/
def mapGet (m : EntityMap) (k : Entity) : Option Stats :=
  match m with
  | [] => none
  | (k', v) :: rest => if k' = k then some v else mapGet rest k

/-- `Map.set`: overwrite the value at an existing key in place (preserving
insertion order), or append a fresh entry at the end. -/
def mapSet (m : EntityMap) (k : Entity) (v : Stats) : EntityMap :=
  match m with
  | [] => [(k, v)]
  | (k', v') :: rest =>
    if k' = k then (k, v) :: rest else (k', v') :: mapSet rest k v

/-- Body of the first loop of `getSummaryByEntity`: resolve the request's URL
and add its `transferSize` to the entity's stats (skip when unresolved). -/
def recordStep (env : Env) (m : EntityMap) (request : NetworkRequest) :
    EntityMap :=
  match getEntitySafe env.getEntity request.url with
  | none => m
  | some entity =>
    let entityStats := (mapGet m entity).getD ⟨0, 0⟩
    mapSet m entity
      { entityStats with
        transferSize := entityStats.transferSize + request.transferSize }

/-- Body of the second loop of `getSummaryByEntity`: resolve the task's
attributable URL and add `selfTime * cpuMultiplier` to the entity's
main-thread time (skip when unresolved). -/
def taskStep (env : Env) (cpuMultiplier : ℚ) (jsURLs : List String)
    (m : EntityMap) (task : TaskNode) : EntityMap :=
  let attributableURL := env.getAttributableURLForTask task jsURLs
  match getEntitySafe env.getEntity attributableURL with
  | none => m
  | some entity =>
    let entityStats := (mapGet m entity).getD ⟨0, 0⟩
    mapSet m entity
      { entityStats with
        mainThreadTime :=
          entityStats.mainThreadTime + task.selfTime * cpuMultiplier }

/-- `ThirdPartySummary.getSummaryByEntity`: one pass over the network records
accumulating transfer bytes, then one pass over the main-thread tasks
accumulating weighted self time, into a map keyed by entity. -/
def getSummaryByEntity (env : Env) (networkRecords : List NetworkRequest)
    (mainThreadTasks : List TaskNode) (cpuMultiplier : ℚ) : EntityMap :=
  let entities := networkRecords.foldl (recordStep env) []
  let jsURLs := env.getJavaScriptURLs networkRecords
  mainThreadTasks.foldl (taskStep env cpuMultiplier jsURLs) entities

/-- The `LH.Audit.Details.LinkValue` built for each row's entity column. -/
structure LinkValue where
  text : String
  url : String
deriving DecidableEq

/-- One output table row of the audit. -/
structure RankedRow where
  entity : LinkValue
  transferSize : Nat
  mainThreadTime : ℚ
deriving DecidableEq

/-- The grand-total summary attached to the table. -/
structure Summary where
  wastedBytes : Nat
  wastedMs : ℚ
deriving DecidableEq

/-- The audit product: informative score plus table rows and summary. -/
structure AuditProduct where
  score : Nat
  rows : List RankedRow
  summary : Summary
deriving DecidableEq

/-- `computeSortValue`: combined measure of bytes and main-thread time
(1 KB of transfer is weighted like 1 ms of execution). -/
def computeSortValue (stats : RankedRow) : ℚ :=
  (stats.transferSize : ℚ) / 1024 + stats.mainThreadTime

/-- The row built from one aggregate entry: a link cell carrying the entity's
name and homepage (empty string when the entity has no homepage), plus the
two raw totals. -/
def mkRow (p : Entity × Stats) : RankedRow :=
  { entity := { text := p.1.name, url := p.1.homepage.getD "" }
    transferSize := p.2.transferSize
    mainThreadTime := p.2.mainThreadTime }

/-- The comparison passed to `.sort`: descending by `computeSortValue`. -/
def sortLe (a b : RankedRow) : Bool :=
  decide (computeSortValue b ≤ computeSortValue a)

/-- `ThirdPartySummary.audit`, after its inputs have been obtained from the
upstream artifact computations: build the per-entity aggregate, accumulate
the grand totals while mapping entries to rows, sort the rows descending by
`computeSortValue`, and score 1 exactly when there are no rows. -/
def audit (env : Env) (networkRecords : List NetworkRequest)
    (mainThreadTasks : List TaskNode) (cpuMultiplier : ℚ) : AuditProduct :=
  let summaryByEntity :=
    getSummaryByEntity env networkRecords mainThreadTasks cpuMultiplier
  let summary : Summary :=
    { wastedBytes := (summaryByEntity.map (fun p => p.2.transferSize)).sum
      wastedMs := (summaryByEntity.map (fun p => p.2.mainThreadTime)).sum }
  let results := (summaryByEntity.map mkRow).mergeSort sortLe
  { score := if results.length = 0 then 1 else 0
    rows := results
    summary := summary }

/-- A sample knowledge-base entity, used to instantiate the theorems below. -/
def sampleEntity : Entity :=
  { id := 1, name := "Example CDN", homepage := some "https://example-cdn.com" }

/-- A second sample entity, with no homepage. -/
def bareEntity : Entity :=
  { id := 2, name := "Bare Analytics", homepage := none }

/-- A sample environment: two recognized URLs, one first-party URL resolving
to no entity, everything else throwing; tasks are attributed to the URL in
their metadata. -/
def sampleEnv : Env where
  getEntity url :=
    if url = "https://example-cdn.com/a.js" then Except.ok (some sampleEntity)
    else if url = "https://bare.example/b.js" then Except.ok (some bareEntity)
    else if url = "https://first.party/page" then Except.ok none
    else Except.error ()
  getJavaScriptURLs records := records.map NetworkRequest.url
  getAttributableURLForTask task _ := task.attributionMeta

/-- Entity/byte content of an aggregate, forgetting main-thread times. -/
def projBytes (m : EntityMap) : List (Entity × Nat) :=
  m.map (fun p => (p.1, p.2.transferSize))

/-- `mapGet` on the byte projection. -/
def projGet (m : List (Entity × Nat)) (k : Entity) : Option Nat :=
  match m with
  | [] => none
  | (k', n) :: rest => if k' = k then some n else projGet rest k

/-- `mapSet` on the byte projection. -/
def projSet (m : List (Entity × Nat)) (k : Entity) (n : Nat) :
    List (Entity × Nat) :=
  match m with
  | [] => [(k, n)]
  | (k', n') :: rest =>
    if k' = k then (k, n) :: rest else (k', n') :: projSet rest k n

/-- The entity-link/byte content of a byte-projection entry, as it appears
in an output row. -/
def rowKeyOf (q : Entity × Nat) : LinkValue × Nat :=
  ({ text := q.1.name, url := q.1.homepage.getD "" }, q.2)

/-- Setting a key makes `mapGet` return the new value at that key. -/
theorem mapGet_mapSet_self (m : EntityMap) (k : Entity) (v : Stats) :
    mapGet (mapSet m k v) k = some v := by
  induction m with
  | nil => simp [mapSet, mapGet]
  | cons p rest ih =>
    obtain ⟨k', v'⟩ := p
    by_cases h : k' = k <;> simp [mapSet, mapGet, h, ih]

/-- Setting a key leaves `mapGet` unchanged at every other key. -/
theorem mapGet_mapSet_ne (m : EntityMap) (k k' : Entity) (v : Stats)
    (h : k' ≠ k) : mapGet (mapSet m k v) k' = mapGet m k' := by
  induction m with
  | nil => simp [mapSet, mapGet, Ne.symm h]
  | cons p rest ih =>
    obtain ⟨a, b⟩ := p
    by_cases ha : a = k
    · subst ha
      simp [mapSet, mapGet, Ne.symm h]
    · by_cases ha' : a = k' <;> simp [mapSet, mapGet, ha, ha', ih, h]

/-- `mapSet` keeps the key list when the key is present, else appends it. -/
theorem keys_mapSet (m : EntityMap) (k : Entity) (v : Stats) :
    (mapSet m k v).map Prod.fst =
      if k ∈ m.map Prod.fst then m.map Prod.fst
      else m.map Prod.fst ++ [k] := by
  induction m with
  | nil => simp [mapSet]
  | cons p rest ih =>
    obtain ⟨a, b⟩ := p
    by_cases ha : a = k
    · subst ha
      simp [mapSet]
    · by_cases hk : k ∈ rest.map Prod.fst <;>
        simp [mapSet, ha, Ne.symm ha, hk, ih]

/-- `mapSet` preserves distinctness of the keys. -/
theorem nodup_keys_mapSet (m : EntityMap) (k : Entity) (v : Stats)
    (h : (m.map Prod.fst).Nodup) : ((mapSet m k v).map Prod.fst).Nodup := by
  rw [keys_mapSet]
  by_cases hk : k ∈ m.map Prod.fst
  · simpa [hk] using h
  · simp only [hk, if_false]
    rw [List.nodup_append]
    exact ⟨h, List.nodup_singleton k, by simpa using hk⟩

/-- One step of the network-record loop preserves key distinctness. -/
theorem nodup_keys_recordStep (env : Env) (m : EntityMap)
    (r : NetworkRequest) (h : (m.map Prod.fst).Nodup) :
    ((recordStep env m r).map Prod.fst).Nodup := by
  unfold recordStep
  cases getEntitySafe env.getEntity r.url with
  | none => exact h
  | some e => exact nodup_keys_mapSet m e _ h

/-- One step of the task loop preserves key distinctness. -/
theorem nodup_keys_taskStep (env : Env) (c : ℚ) (js : List String)
    (m : EntityMap) (t : TaskNode) (h : (m.map Prod.fst).Nodup) :
    ((taskStep env c js m t).map Prod.fst).Nodup := by
  simp only [taskStep]
  cases hr : getEntitySafe env.getEntity (env.getAttributableURLForTask t js) with
  | none => exact h
  | some e => exact nodup_keys_mapSet m e _ h

/-- The network-record pass preserves key distinctness. -/
theorem nodup_keys_foldl_recordStep (env : Env) (rs : List NetworkRequest)
    (m : EntityMap) (h : (m.map Prod.fst).Nodup) :
    ((rs.foldl (recordStep env) m).map Prod.fst).Nodup := by
  induction rs generalizing m with
  | nil => exact h
  | cons r rs ih => exact ih _ (nodup_keys_recordStep env m r h)

/-- The task pass preserves key distinctness. -/
theorem nodup_keys_foldl_taskStep (env : Env) (c : ℚ) (js : List String)
    (ts : List TaskNode) (m : EntityMap) (h : (m.map Prod.fst).Nodup) :
    ((ts.foldl (taskStep env c js) m).map Prod.fst).Nodup := by
  induction ts generalizing m with
  | nil => exact h
  | cons t ts ih => exact ih _ (nodup_keys_taskStep env c js m t h)

/-- The aggregate produced by `getSummaryByEntity` has distinct entity keys. -/
theorem nodup_keys_getSummaryByEntity (env : Env)
    (records : List NetworkRequest) (tasks : List TaskNode) (c : ℚ) :
    ((getSummaryByEntity env records tasks c).map Prod.fst).Nodup := by
  unfold getSummaryByEntity
  exact nodup_keys_foldl_taskStep env c _ tasks _
    (nodup_keys_foldl_recordStep env records [] (by simp))

/-- The rows of the audit product are the sorted mapped aggregate entries. -/
theorem audit_rows (env : Env) (r : List NetworkRequest) (t : List TaskNode)
    (c : ℚ) :
    (audit env r t c).rows =
      ((getSummaryByEntity env r t c).map mkRow).mergeSort sortLe := rfl

/-- The score of the audit product, unfolded. -/
theorem audit_score (env : Env) (r : List NetworkRequest) (t : List TaskNode)
    (c : ℚ) :
    (audit env r t c).score =
      if (((getSummaryByEntity env r t c).map mkRow).mergeSort sortLe).length
          = 0 then 1 else 0 := rfl

/-- The byte total of the audit product, unfolded. -/
theorem audit_wastedBytes (env : Env) (r : List NetworkRequest)
    (t : List TaskNode) (c : ℚ) :
    (audit env r t c).summary.wastedBytes =
      ((getSummaryByEntity env r t c).map
        (fun p => p.2.transferSize)).sum := rfl

/-- The time total of the audit product, unfolded. -/
theorem audit_wastedMs (env : Env) (r : List NetworkRequest)
    (t : List TaskNode) (c : ℚ) :
    (audit env r t c).summary.wastedMs =
      ((getSummaryByEntity env r t c).map
        (fun p => p.2.mainThreadTime)).sum := rfl

/-- `projGet` reads the transfer size stored in the aggregate. -/
theorem projGet_projBytes (m : EntityMap) (k : Entity) :
    projGet (projBytes m) k = (mapGet m k).map Stats.transferSize := by
  induction m with
  | nil => simp [projBytes, projGet, mapGet]
  | cons p rest ih =>
    obtain ⟨a, b⟩ := p
    by_cases ha : a = k
    · simp [projBytes, projGet, mapGet, ha]
    · simp only [projBytes, List.map_cons, projGet, mapGet, ha, if_false]
      simpa [projBytes] using ih

/-- `projSet` tracks `mapSet` through the byte projection. -/
theorem projBytes_mapSet (m : EntityMap) (k : Entity) (v : Stats) :
    projBytes (mapSet m k v) = projSet (projBytes m) k v.transferSize := by
  induction m with
  | nil => simp [projBytes, projSet, mapSet]
  | cons p rest ih =>
    obtain ⟨a, b⟩ := p
    by_cases ha : a = k
    · simp [projBytes, projSet, mapSet, ha]
    · simp only [projBytes, List.map_cons, projSet, mapSet, ha, if_false]
      simpa [projBytes] using ih

/-- A task step only rearranges the byte projection in a way determined by
the projection itself; in particular the `cpuMultiplier` plays no role. -/
theorem projBytes_taskStep (env : Env) (c : ℚ) (js : List String)
    (m : EntityMap) (t : TaskNode) :
    projBytes (taskStep env c js m t) =
      match getEntitySafe env.getEntity
          (env.getAttributableURLForTask t js) with
      | none => projBytes m
      | some k => projSet (projBytes m) k ((projGet (projBytes m) k).getD 0) := by
  simp only [taskStep]
  cases hr : getEntitySafe env.getEntity (env.getAttributableURLForTask t js) with
  | none => rfl
  | some e =>
    rw [projBytes_mapSet]
    cases hm : mapGet m e <;> simp [projGet_projBytes, hm]

/-- The whole task pass leaves the byte projection independent of the
multiplier and of the discarded main-thread times. -/
theorem projBytes_foldl_taskStep (env : Env) (c₁ c₂ : ℚ) (js : List String)
    (ts : List TaskNode) (m₁ m₂ : EntityMap)
    (h : projBytes m₁ = projBytes m₂) :
    projBytes (ts.foldl (taskStep env c₁ js) m₁) =
      projBytes (ts.foldl (taskStep env c₂ js) m₂) := by
  induction ts generalizing m₁ m₂ with
  | nil => exact h
  | cons t ts ih =>
    apply ih
    rw [projBytes_taskStep, projBytes_taskStep, h]

/-- The byte projection of the aggregate does not depend on `cpuMultiplier`. -/
theorem projBytes_getSummaryByEntity (env : Env) (r : List NetworkRequest)
    (t : List TaskNode) (c₁ c₂ : ℚ) :
    projBytes (getSummaryByEntity env r t c₁) =
      projBytes (getSummaryByEntity env r t c₂) := by
  unfold getSummaryByEntity
  exact projBytes_foldl_taskStep env c₁ c₂ _ t _ _ rfl

/-- A record whose URL does not resolve to the entity of interest leaves its
stats untouched; hence a whole pass of such records does. -/
theorem mapGet_foldl_recordStep (env : Env) (rs : List NetworkRequest)
    (m : EntityMap) (E : Entity)
    (h : ∀ r ∈ rs, getEntitySafe env.getEntity r.url ≠ some E) :
    mapGet (rs.foldl (recordStep env) m) E = mapGet m E := by
  induction rs generalizing m with
  | nil => rfl
  | cons r rs ih =>
    rw [List.foldl_cons,
      ih _ (fun x hx => h x (List.mem_cons_of_mem _ hx))]
    unfold recordStep
    cases hr : getEntitySafe env.getEntity r.url with
    | none => rfl
    | some e =>
      have hne : E ≠ e := fun hEq => h r (List.mem_cons_self _ _) (hEq ▸ hr)
      exact mapGet_mapSet_ne _ _ _ _ hne

/-- The task pass never increases a transfer size: an entity whose stats had
zero transfer bytes (or no entry at all) before the task pass still has zero
transfer bytes after it. -/
theorem transferSize_foldl_taskStep (env : Env) (c : ℚ) (js : List String)
    (ts : List TaskNode) (m : EntityMap) (E : Entity)
    (h : ∀ s, mapGet m E = some s → s.transferSize = 0) :
    ∀ s, mapGet (ts.foldl (taskStep env c js) m) E = some s →
      s.transferSize = 0 := by
  induction ts generalizing m with
  | nil => exact h
  | cons t ts ih =>
    rw [List.foldl_cons]
    apply ih
    intro s hs
    simp only [taskStep] at hs
    cases hr : getEntitySafe env.getEntity
        (env.getAttributableURLForTask t js) with
    | none =>
      rw [hr] at hs
      exact h s hs
    | some e =>
      rw [hr] at hs
      by_cases he : E = e
      · subst he
        rw [mapGet_mapSet_self] at hs
        cases hs
        cases hm : mapGet m E with
        | none => simp [hm]
        | some s' => simpa [hm] using h s' hm
      · rw [mapGet_mapSet_ne _ _ _ _ he] at hs
        exact h s hs

/-- C1: for every input (network records, tasks, cpuMultiplier), the Summary
equals the elementwise sum of the per-row totals: the sum of `transferSize`
over all output rows is `summary.wastedBytes`, and the sum of
`mainThreadTime` over all output rows is `summary.wastedMs`. -/
theorem audit_summary_is_row_sum (env : Env) (r : List NetworkRequest)
    (t : List TaskNode) (c : ℚ) :
    ((audit env r t c).rows.map RankedRow.transferSize).sum
        = (audit env r t c).summary.wastedBytes ∧
    ((audit env r t c).rows.map RankedRow.mainThreadTime).sum
        = (audit env r t c).summary.wastedMs := by
  have hperm :=
    List.mergeSort_perm ((getSummaryByEntity env r t c).map mkRow) sortLe
  constructor
  · rw [audit_rows, audit_wastedBytes,
      (hperm.map RankedRow.transferSize).sum_eq, List.map_map]
    rfl
  · rw [audit_rows, audit_wastedMs,
      (hperm.map RankedRow.mainThreadTime).sum_eq, List.map_map]
    rfl

/-- C2: the output rows are sorted in descending order of the combined score
`transferSize / 1024 + mainThreadTime`: every adjacent pair (a, b) satisfies
`computeSortValue a ≥ computeSortValue b`. -/
theorem audit_rows_sorted_desc (env : Env) (r : List NetworkRequest)
    (t : List TaskNode) (c : ℚ) :
    List.Chain' (fun a b => computeSortValue b ≤ computeSortValue a)
      (audit env r t c).rows := by
  rw [audit_rows]
  have htrans : ∀ a b c' : RankedRow,
      sortLe a b → sortLe b c' → sortLe a c' := by
    intro a b c' hab hbc
    simp only [sortLe, decide_eq_true_eq] at *
    exact le_trans hbc hab
  have htotal : ∀ a b : RankedRow, sortLe a b || sortLe b a := by
    intro a b
    simp only [sortLe, Bool.or_eq_true, decide_eq_true_eq]
    exact le_total _ _
  have hp := List.sorted_mergeSort htrans htotal
    ((getSummaryByEntity env r t c).map mkRow)
  exact (hp.imp (fun hab => by simpa [sortLe] using hab)).chain'

/-- C4: safe entity resolution is a total function over all URL strings: for
every (possibly throwing) knowledge-base lookup and every URL it either
passes through the lookup's successful answer (an entity or no-match), or
converts the lookup's exception into no-match; a failure never propagates. -/
theorem getEntitySafe_total (f : String → Except Unit (Option Entity))
    (url : String) :
    (∃ e, f url = Except.ok e ∧ getEntitySafe f url = e) ∨
      (f url = Except.error () ∧ getEntitySafe f url = none) := by
  cases h : f url with
  | ok e => exact Or.inl ⟨e, rfl, by simp [getEntitySafe, h]⟩
  | error err =>
    cases err
    exact Or.inr ⟨rfl, by simp [getEntitySafe, h]⟩

/-- C7: each entity appears at most once in the output: the aggregate's
entity keys are distinct, and the rows are a permutation — a one-to-one
projection — of the aggregate's entries. -/
theorem audit_rows_one_to_one (env : Env) (r : List NetworkRequest)
    (t : List TaskNode) (c : ℚ) :
    ((getSummaryByEntity env r t c).map Prod.fst).Nodup ∧
    ((audit env r t c).rows).Perm
      ((getSummaryByEntity env r t c).map mkRow) := by
  refine ⟨nodup_keys_getSummaryByEntity env r t c, ?_⟩
  rw [audit_rows]
  exact List.mergeSort_perm _ _

/-- C8: the audit's score is 1 exactly when the row sequence is empty, and 0
whenever it is non-empty, regardless of the magnitudes in the rows. -/
theorem audit_score_spec (env : Env) (r : List NetworkRequest)
    (t : List TaskNode) (c : ℚ) :
    (audit env r t c).score =
      if (audit env r t c).rows = [] then 1 else 0 := by
  rw [audit_score, audit_rows]
  have hlen : ((getSummaryByEntity env r t c).map mkRow).mergeSort sortLe = []
      ↔ getSummaryByEntity env r t c = [] := by
    rw [← List.length_eq_zero, List.length_mergeSort, List.length_map,
      List.length_eq_zero]
  simp [List.length_eq_zero, hlen]

/-- C9: empty inputs (no records, no tasks) always yield an empty row
sequence, a zero Summary and a score of 1. -/
theorem audit_empty_inputs (env : Env) (c : ℚ) :
    audit env [] [] c =
      { score := 1, rows := []
        summary := { wastedBytes := 0, wastedMs := 0 } } := by
  have hagg : getSummaryByEntity env [] [] c = [] := rfl
  simp [audit, hagg]

/-- C3: a transfer record whose URL does not resolve to an entity contributes
nothing and creates no aggregate entry: the single record
`{url := "not a url", transferSize := 500}` with no tasks yields an empty
row sequence and zero wasted bytes. -/
theorem audit_unresolvable_record (env : Env) (c : ℚ)
    (h : getEntitySafe env.getEntity "not a url" = none) :
    (audit env [{ url := "not a url", transferSize := 500 }] [] c).rows = []
      ∧ (audit env [{ url := "not a url", transferSize := 500 }] []
          c).summary.wastedBytes = 0 := by
  have hagg :
      getSummaryByEntity env [{ url := "not a url", transferSize := 500 }]
        [] c = [] := by
    simp [getSummaryByEntity, recordStep, h]
  rw [audit_rows, audit_wastedBytes, hagg]
  simp

/-- The claim of `audit_unresolvable_record` holds at the sample environment,
where `"not a url"` makes the knowledge-base lookup throw. -/
theorem audit_unresolvable_record_witness :
    (audit sampleEnv [{ url := "not a url", transferSize := 500 }] [] 1).rows
        = []
      ∧ (audit sampleEnv [{ url := "not a url", transferSize := 500 }] []
          1).summary.wastedBytes = 0 :=
  audit_unresolvable_record sampleEnv 1 (by decide)

/-- A single task attributed to a resolved entity produces exactly one
aggregate entry holding `selfTime * cpuMultiplier` and no transfer bytes. -/
theorem single_task_aggregate (env : Env) (task : TaskNode) (E : Entity)
    (c : ℚ)
    (hres : getEntitySafe env.getEntity
      (env.getAttributableURLForTask task (env.getJavaScriptURLs []))
        = some E) :
    getSummaryByEntity env [] [task] c = [(E, ⟨task.selfTime * c, 0⟩)] := by
  simp [getSummaryByEntity, taskStep, hres, mapGet, mapSet]

/-- C5: the cpuMultiplier scales exactly the attributed self time — a single
task with `selfTime = 100` yields `mainThreadTime = 400` under multiplier 4
and `100` under multiplier 1 — and it never touches bytes: for every input,
changing the multiplier leaves the summary's `wastedBytes` and the rows'
entity/`transferSize` content unchanged. -/
theorem cpuMultiplier_scales_time_not_bytes (env : Env) (task : TaskNode)
    (E : Entity) (h100 : task.selfTime = 100)
    (hres : getEntitySafe env.getEntity
      (env.getAttributableURLForTask task (env.getJavaScriptURLs []))
        = some E)
    (records : List NetworkRequest) (tasks : List TaskNode) (c₁ c₂ : ℚ) :
    mapGet (getSummaryByEntity env [] [task] 4) E = some ⟨400, 0⟩ ∧
    mapGet (getSummaryByEntity env [] [task] 1) E = some ⟨100, 0⟩ ∧
    (audit env records tasks c₁).summary.wastedBytes
      = (audit env records tasks c₂).summary.wastedBytes ∧
    ((audit env records tasks c₁).rows.map
        (fun row => (row.entity, row.transferSize))).Perm
      ((audit env records tasks c₂).rows.map
        (fun row => (row.entity, row.transferSize))) := by
  have hP := projBytes_getSummaryByEntity env records tasks c₁ c₂
  refine ⟨?_, ?_, ?_, ?_⟩
  · rw [single_task_aggregate env task E 4 hres, h100]
    norm_num [mapGet]
  · rw [single_task_aggregate env task E 1 hres, h100]
    norm_num [mapGet]
  · rw [audit_wastedBytes, audit_wastedBytes]
    have key : ∀ c : ℚ,
        ((getSummaryByEntity env records tasks c).map
            (fun p => p.2.transferSize)).sum
          = ((projBytes (getSummaryByEntity env records tasks c)).map
              Prod.snd).sum := by
      intro c
      rw [projBytes, List.map_map]
      rfl
    rw [key, key, hP]
  · have hrows : ∀ c : ℚ,
        (((audit env records tasks c).rows).map
            (fun row => (row.entity, row.transferSize))).Perm
          ((projBytes (getSummaryByEntity env records tasks c)).map
            rowKeyOf) := by
      intro c
      rw [audit_rows]
      have hps := (List.mergeSort_perm
        ((getSummaryByEntity env records tasks c).map mkRow) sortLe).map
        (fun row => (row.entity, row.transferSize))
      have heq :
          ((getSummaryByEntity env records tasks c).map mkRow).map
              (fun row => (row.entity, row.transferSize))
            = (projBytes (getSummaryByEntity env records tasks c)).map
                rowKeyOf := by
        rw [projBytes, List.map_map, List.map_map]
        rfl
      rw [← heq]
      exact hps
    have h2 := hrows c₂
    rw [← hP] at h2
    exact (hrows c₁).trans h2.symm

/-- The claim of `cpuMultiplier_scales_time_not_bytes` holds at the sample
environment with a concrete task, record list and multiplier pair. -/
theorem cpuMultiplier_scales_time_not_bytes_witness :
    mapGet (getSummaryByEntity sampleEnv []
        [⟨100, "https://example-cdn.com/a.js"⟩] 4) sampleEntity
        = some ⟨400, 0⟩ ∧
    mapGet (getSummaryByEntity sampleEnv []
        [⟨100, "https://example-cdn.com/a.js"⟩] 1) sampleEntity
        = some ⟨100, 0⟩ ∧
    (audit sampleEnv [⟨"https://example-cdn.com/a.js", 7⟩]
        [⟨5, "https://example-cdn.com/a.js"⟩] 2).summary.wastedBytes
      = (audit sampleEnv [⟨"https://example-cdn.com/a.js", 7⟩]
          [⟨5, "https://example-cdn.com/a.js"⟩] 3).summary.wastedBytes ∧
    ((audit sampleEnv [⟨"https://example-cdn.com/a.js", 7⟩]
        [⟨5, "https://example-cdn.com/a.js"⟩] 2).rows.map
          (fun row => (row.entity, row.transferSize))).Perm
      ((audit sampleEnv [⟨"https://example-cdn.com/a.js", 7⟩]
          [⟨5, "https://example-cdn.com/a.js"⟩] 3).rows.map
            (fun row => (row.entity, row.transferSize))) :=
  cpuMultiplier_scales_time_not_bytes sampleEnv
    ⟨100, "https://example-cdn.com/a.js"⟩ sampleEntity rfl (by decide)
    [⟨"https://example-cdn.com/a.js", 7⟩]
    [⟨5, "https://example-cdn.com/a.js"⟩] 2 3

/-- C6: contributions resolving to the same entity merge into one keyed
entry: two records of 100 and 200 bytes plus one task of `selfTime = 50`,
all attributed to one entity with multiplier 1, yield exactly one row with
`transferSize = 300` and `mainThreadTime = 50`. -/
theorem merge_same_entity (env : Env) (E : Entity) (u₁ u₂ : String)
    (task : TaskNode)
    (h1 : getEntitySafe env.getEntity u₁ = some E)
    (h2 : getEntitySafe env.getEntity u₂ = some E)
    (ht : getEntitySafe env.getEntity
      (env.getAttributableURLForTask task
        (env.getJavaScriptURLs [⟨u₁, 100⟩, ⟨u₂, 200⟩])) = some E)
    (h50 : task.selfTime = 50) :
    (audit env [⟨u₁, 100⟩, ⟨u₂, 200⟩] [task] 1).rows
      = [⟨⟨E.name, E.homepage.getD ""⟩, 300, 50⟩] := by
  have hagg : getSummaryByEntity env [⟨u₁, 100⟩, ⟨u₂, 200⟩] [task] 1
      = [(E, ⟨50, 300⟩)] := by
    simp [getSummaryByEntity, recordStep, taskStep, h1, h2, ht, h50,
      mapGet, mapSet]
  rw [audit_rows, hagg]
  simp [mkRow]

/-- The claim of `merge_same_entity` holds at the sample environment with
both records and the task attributed to the sample entity. -/
theorem merge_same_entity_witness :
    (audit sampleEnv
        [⟨"https://example-cdn.com/a.js", 100⟩,
          ⟨"https://example-cdn.com/a.js", 200⟩]
        [⟨50, "https://example-cdn.com/a.js"⟩] 1).rows
      = [⟨⟨sampleEntity.name, sampleEntity.homepage.getD ""⟩, 300, 50⟩] :=
  merge_same_entity sampleEnv sampleEntity
    "https://example-cdn.com/a.js" "https://example-cdn.com/a.js"
    ⟨50, "https://example-cdn.com/a.js"⟩
    (by decide) (by decide) (by decide) rfl

/-- C10: every output row's entity link carries a string URL — the empty
string when the resolved entity has no homepage — and an entity attributed
only via execution tasks (no record resolves to it) carries zero transfer
bytes in its aggregate entry, because stats are zero-initialized on first
contribution from either pass. -/
theorem task_only_entity_rows (env : Env) (records : List NetworkRequest)
    (tasks : List TaskNode) (c : ℚ) (E : Entity) (s : Stats)
    (hno : ∀ r ∈ records, getEntitySafe env.getEntity r.url ≠ some E)
    (hmem : mapGet (getSummaryByEntity env records tasks c) E = some s) :
    s.transferSize = 0 ∧
    ∀ row ∈ (audit env records tasks c).rows,
      ∃ p ∈ getSummaryByEntity env records tasks c,
        row.entity.text = p.1.name
          ∧ row.entity.url = p.1.homepage.getD "" := by
  constructor
  · have hbase : mapGet (records.foldl (recordStep env) []) E = none := by
      rw [mapGet_foldl_recordStep env records [] E hno]
      rfl
    have h0 : ∀ s', mapGet (records.foldl (recordStep env) []) E = some s' →
        s'.transferSize = 0 := by
      intro s' hs'
      rw [hbase] at hs'
      exact absurd hs' (by simp)
    exact transferSize_foldl_taskStep env c
      (env.getJavaScriptURLs records) tasks _ E h0 s hmem
  · intro row hrow
    rw [audit_rows, List.mem_mergeSort] at hrow
    obtain ⟨p, hp, rfl⟩ := List.mem_map.mp hrow
    exact ⟨p, hp, rfl, rfl⟩

/-- The claim of `task_only_entity_rows` holds at the sample environment for
the homepage-less entity, attributed via a single task and no records. -/
theorem task_only_entity_rows_witness :
    (Stats.mk 10 0).transferSize = 0 ∧
    ∀ row ∈ (audit sampleEnv [] [⟨10, "https://bare.example/b.js"⟩] 1).rows,
      ∃ p ∈ getSummaryByEntity sampleEnv []
          [⟨10, "https://bare.example/b.js"⟩] 1,
        row.entity.text = p.1.name
          ∧ row.entity.url = p.1.homepage.getD "" :=
  task_only_entity_rows sampleEnv [] [⟨10, "https://bare.example/b.js"⟩] 1
    bareEntity ⟨10, 0⟩ (by simp)
    (by simp [getSummaryByEntity, taskStep, getEntitySafe, sampleEnv,
      mapGet, mapSet])

end ThirdPartySummary
